import Mathlib

/-!
# HealthcareDataAnalysis — verified embedding

A shallow embedding of the data-analysis pipeline in `code.py`:
load patient / hospital / treatment tables, left-join them, forward-fill
missing cells, derive age, age group, admission/discharge month and length
of stay, and compute grouped aggregates.  Tables are lists of rows whose
cells are `Option`-typed (`none` models a pandas missing value, NaN/NaT);
dates are calendar triples with a days-since-epoch conversion, and numeric
cells are rationals.
-/

namespace HealthData

/-- A calendar date, as held in the `parse_dates` columns of the loaded
tables (year, month, day). -/
structure Date where
  y : Nat
  m : Nat
  d : Nat
  deriving DecidableEq, Repr

/-- Days since the Unix epoch of a civil date in the proleptic Gregorian
calendar — the arithmetic underlying pandas timestamp subtraction
(`(d2 - d1).dt.days`).  Uses floor division throughout. -/
def Date.toDays (dt : Date) : Int :=
  let yy : Int := if dt.m ≤ 2 then (dt.y : Int) - 1 else (dt.y : Int)
  let era : Int := Int.fdiv yy 400
  let yoe : Int := yy - era * 400
  let mp : Int := if dt.m ≤ 2 then (dt.m : Int) + 9 else (dt.m : Int) - 3
  let doy : Int := Int.fdiv (153 * mp + 2) 5 + (dt.d : Int) - 1
  let doe : Int := yoe * 365 + Int.fdiv yoe 4 - Int.fdiv yoe 100 + doy
  era * 146097 + doe - 719468

/-- A row of `patient_data.csv` after loading.  Every cell is optional:
`none` is a missing value (NaN/NaT). -/
structure PatientRow where
  pid : Option String
  dob : Option Date
  adm : Option Date
  dis : Option Date
  gender : Option String
  cond : Option String
  hid : Option String
  readmitted : Option ℚ
  outcome : Option String
  deriving DecidableEq, Repr

/-- A row of `hospital_data.csv`. -/
structure HospitalRow where
  hid : Option String
  dept : Option String
  deriving DecidableEq, Repr

/-- A row of `treatment_data.csv`. -/
structure TreatmentRow where
  cond : Option String
  ttype : Option String
  eff : Option ℚ
  deriving DecidableEq, Repr

/-- A row of the intermediate table `patients.merge(hospitals, on="Hospital_ID",
how="left")`: patient fields plus the hospital's department. -/
structure PHRow where
  pid : Option String
  dob : Option Date
  adm : Option Date
  dis : Option Date
  gender : Option String
  cond : Option String
  hid : Option String
  readmitted : Option ℚ
  outcome : Option String
  dept : Option String
  deriving DecidableEq, Repr

/-- A row of the fully merged table `df`. -/
structure Row where
  pid : Option String
  dob : Option Date
  adm : Option Date
  dis : Option Date
  gender : Option String
  cond : Option String
  hid : Option String
  readmitted : Option ℚ
  outcome : Option String
  dept : Option String
  ttype : Option String
  eff : Option ℚ
  deriving DecidableEq, Repr

/-- The patient fields of a merged row. -/
def Row.patient (r : Row) : PatientRow :=
  ⟨r.pid, r.dob, r.adm, r.dis, r.gender, r.cond, r.hid, r.readmitted, r.outcome⟩

/-- The patient+hospital fields of a merged row. -/
def Row.ph (r : Row) : PHRow :=
  ⟨r.pid, r.dob, r.adm, r.dis, r.gender, r.cond, r.hid, r.readmitted, r.outcome, r.dept⟩

/-! ## Merger: two left outer joins -/

/-- pandas merge-key equality: plain equality of the key cells.  Key
factorization in `merge` assigns the missing keys of both sides one shared
NA group, so two missing keys match each other, while a missing key never
matches a present one. -/
def matchKey (a b : Option String) : Bool :=
  a == b

/-- The rows a single patient contributes to the left join with the hospital
table: one output row per matching hospital row, or a single row with a null
department when no hospital matches. -/
def joinHospital (p : PatientRow) (hs : List HospitalRow) : List PHRow :=
  let ms := hs.filter fun h => matchKey p.hid h.hid
  if ms.isEmpty then
    [⟨p.pid, p.dob, p.adm, p.dis, p.gender, p.cond, p.hid, p.readmitted, p.outcome, none⟩]
  else
    ms.map fun h =>
      ⟨p.pid, p.dob, p.adm, p.dis, p.gender, p.cond, p.hid, p.readmitted, p.outcome, h.dept⟩

/-- `patients.merge(hospitals, on="Hospital_ID", how="left")`. -/
def mergePH (ps : List PatientRow) (hs : List HospitalRow) : List PHRow :=
  ps.flatMap fun p => joinHospital p hs

/-- The rows a single patient+hospital row contributes to the left join with
the treatment table: one output row per treatment row with a matching
condition, or a single row with null treatment fields when none matches. -/
def joinTreatment (r : PHRow) (ts : List TreatmentRow) : List Row :=
  let ms := ts.filter fun t => matchKey r.cond t.cond
  if ms.isEmpty then
    [⟨r.pid, r.dob, r.adm, r.dis, r.gender, r.cond, r.hid, r.readmitted, r.outcome, r.dept,
      none, none⟩]
  else
    ms.map fun t =>
      ⟨r.pid, r.dob, r.adm, r.dis, r.gender, r.cond, r.hid, r.readmitted, r.outcome, r.dept,
        t.ttype, t.eff⟩

/-- `(...).merge(treatments, on="Condition", how="left")`. -/
def mergeTreat (m : List PHRow) (ts : List TreatmentRow) : List Row :=
  m.flatMap fun r => joinTreatment r ts

/-- The full Merger:
`patients.merge(hospitals, on="Hospital_ID", how="left").merge(treatments, on="Condition", how="left")`. -/
def mergeAll (ps : List PatientRow) (hs : List HospitalRow) (ts : List TreatmentRow) :
    List Row :=
  mergeTreat (mergePH ps hs) ts

/-! ## Cleaner: `df.fillna(method='ffill')` -/

/-- One forward-fill step on a cell: a present value stays, a missing one is
replaced by the carried previous value. -/
def fillCell {α : Type _} (c prev : Option α) : Option α :=
  match c with
  | some v => some v
  | none => prev

/-- Forward fill of a single column, carrying the last value seen. -/
def ffillAux {α : Type _} (last : Option α) : List (Option α) → List (Option α)
  | [] => []
  | c :: cs =>
    let cur := fillCell c last
    cur :: ffillAux cur cs

/-- Forward fill of a single column (nothing to carry into the first row). -/
def ffillCol {α : Type _} (col : List (Option α)) : List (Option α) :=
  ffillAux none col

/-- Forward-fill every field of a row from the carried previous row. -/
def combineRow (last r : Row) : Row :=
  ⟨fillCell r.pid last.pid, fillCell r.dob last.dob, fillCell r.adm last.adm,
   fillCell r.dis last.dis, fillCell r.gender last.gender, fillCell r.cond last.cond,
   fillCell r.hid last.hid, fillCell r.readmitted last.readmitted,
   fillCell r.outcome last.outcome, fillCell r.dept last.dept,
   fillCell r.ttype last.ttype, fillCell r.eff last.eff⟩

/-- Forward fill over the rows of the table, threading the last filled row. -/
def cleanAux (last : Row) : List Row → List Row
  | [] => []
  | r :: rs =>
    let cur := combineRow last r
    cur :: cleanAux cur rs

/-- The all-missing row (nothing precedes the first row). -/
def emptyRow : Row :=
  ⟨none, none, none, none, none, none, none, none, none, none, none, none⟩

/-- `df.fillna(method='ffill', inplace=True)`: column-wise forward fill of
the merged table. -/
def clean (rs : List Row) : List Row :=
  cleanAux emptyRow rs

/-! ## Enricher: derived columns -/

/-- `today = pd.to_datetime("2024-01-01")` — the fixed reference date. -/
def refDate : Date := ⟨2024, 1, 1⟩

/-- `(today - df["DOB"]).dt.days // 365` on one date of birth (Python `//`
is floor division). -/
def ageOfDob (d : Date) : Int :=
  Int.fdiv (refDate.toDays - d.toDays) 365

/-- The `Age` column of a row (missing when the date of birth is missing). -/
def ageOf (r : Row) : Option Int :=
  r.dob.map ageOfDob

/-- `pd.cut(df["Age"], bins=[0,18,35,50,65,100], labels=[...])` on one age:
half-open intervals, upper bound included, values outside (0,100]
unclassified. -/
def ageGroupOfAge (a : Int) : Option String :=
  if 0 < a ∧ a ≤ 18 then some "Child"
  else if 18 < a ∧ a ≤ 35 then some "Young Adult"
  else if 35 < a ∧ a ≤ 50 then some "Adult"
  else if 50 < a ∧ a ≤ 65 then some "Middle Aged"
  else if 65 < a ∧ a ≤ 100 then some "Senior"
  else none

/-- The `Age_Group` column of a row. -/
def ageGroupOf (r : Row) : Option String :=
  (ageOf r).bind ageGroupOfAge

/-- The `Admission_Month` column: `df["Admission_Date"].dt.month`. -/
def admMonthOf (r : Row) : Option Nat :=
  r.adm.map Date.m

/-- The `Discharge_Month` column: `df["Discharge_Date"].dt.month`. -/
def disMonthOf (r : Row) : Option Nat :=
  r.dis.map Date.m

/-- The `Length_of_Stay` column:
`(df["Discharge_Date"] - df["Admission_Date"]).dt.days` — a plain integer
difference, missing when either date is missing, never clamped. -/
def losOf (r : Row) : Option Int :=
  match r.adm, r.dis with
  | some a, some d => some (d.toDays - a.toDays)
  | _, _ => none

/-! ## Aggregator -/

/-- pandas `Series.mean()` with the default `skipna`: the mean of the
present values, `none` (NaN) when there are none.  The `Option` result
models NaN — pandas returns NaN rather than raising on an empty series. -/
def meanQ (xs : List ℚ) : Option ℚ :=
  if xs.isEmpty then none else some (xs.sum / (xs.length : ℚ))

/-- The sorted list of distinct non-null keys of a table under a key
projection — the index a pandas `groupby` produces (null keys dropped, keys
sorted ascending). -/
def keyList {κ : Type _} [DecidableEq κ] [LinearOrder κ] (key : Row → Option κ)
    (rs : List Row) : List κ :=
  List.insertionSort (· ≤ ·) (rs.filterMap key).dedup

/-- `df.groupby(key)[col].agg(...)`: for each distinct non-null key in
ascending order, the aggregate of the rows carrying that key. -/
def groupBy {κ v : Type _} [DecidableEq κ] [LinearOrder κ] (key : Row → Option κ)
    (agg : List Row → v) (rs : List Row) : List (κ × v) :=
  (keyList key rs).map fun k => (k, agg (rs.filter fun r => decide (key r = some k)))

/-- `df.groupby("Admission_Month")["Patient_ID"].count()` (count of non-null
patient ids per month). -/
def admission_trend (rs : List Row) : List (Nat × Nat) :=
  groupBy admMonthOf (fun g => (g.filterMap Row.pid).length) rs

/-- `df.groupby("Discharge_Month")["Patient_ID"].count()`. -/
def discharge_trend (rs : List Row) : List (Nat × Nat) :=
  groupBy disMonthOf (fun g => (g.filterMap Row.pid).length) rs

/-- Mean of the present length-of-stay values of a group, as a rational. -/
def meanLos (g : List Row) : Option ℚ :=
  meanQ ((g.filterMap losOf).map fun n => (n : ℚ))

/-- `df.groupby("Condition")["Length_of_Stay"].mean()`. -/
def avg_stay_condition (rs : List Row) : List (String × Option ℚ) :=
  groupBy Row.cond meanLos rs

/-- `df.groupby("Department")["Length_of_Stay"].mean()`. -/
def avg_stay_department (rs : List Row) : List (String × Option ℚ) :=
  groupBy Row.dept meanLos rs

/-- `df["Readmitted"].mean()` — the overall readmission rate.  `none` is
pandas' NaN result on a table with no present `Readmitted` value. -/
def readmission_rate (rs : List Row) : Option ℚ :=
  meanQ (rs.filterMap Row.readmitted)

/-- `df.groupby("Condition")["Readmitted"].mean()`. -/
def readmission_by_condition (rs : List Row) : List (String × Option ℚ) :=
  groupBy Row.cond (fun g => meanQ (g.filterMap Row.readmitted)) rs

/-- `df.groupby("Outcome")["Patient_ID"].count()`. -/
def outcome_segment (rs : List Row) : List (String × Nat) :=
  groupBy Row.outcome (fun g => (g.filterMap Row.pid).length) rs

/-- `df.groupby("Treatment_Type")["Effectiveness_Rate"].mean()`. -/
def effectiveness_summary (rs : List Row) : List (String × Option ℚ) :=
  groupBy Row.ttype (fun g => meanQ (g.filterMap Row.eff)) rs

/-- Number of occurrences of a value in a list of strings. -/
def countOcc (xs : List String) (t : String) : Nat :=
  (xs.filter fun s => s == t).length

/-- An element of the list whose score under `cnt` is maximal (an
executable choice: a later element replaces the current best only when
strictly greater).  It stands in for an operation whose choice among
equally scored elements the source library leaves unspecified, so theorems
about the pipeline use only that the result is a member of maximal score —
properties shared by every admissible choice. -/
def argmaxFirst (cnt : String → Nat) : List String → Option String
  | [] => none
  | x :: xs =>
    match argmaxFirst cnt xs with
    | none => some x
    | some y => if cnt x < cnt y then some y else some x

/-- `x.value_counts().index[0]`: a value of maximal occurrence count.
`value_counts` sorts the distinct values by descending count, so the
returned value always has the maximal count, but which of several equally
frequent values comes first is hash-bucket and sort dependent and not
fixed by pandas; this model commits to one admissible representative, and
the pipeline theorems rely only on maximality and membership.  `none`
models the `IndexError` the source raises when the series has no present
value (`value_counts()` is then empty and `.index[0]` fails). -/
def topValue (xs : List String) : Option String :=
  argmaxFirst (countOcc xs) xs

/-- `df[df["Readmitted"] == 1].groupby("Condition")["Treatment_Type"].agg(lambda x: x.value_counts().index[0])`. -/
def interventions (rs : List Row) : List (String × Option String) :=
  groupBy Row.cond (fun g => topValue (g.filterMap Row.ttype))
    (rs.filter fun r => decide (r.readmitted = some 1))

/-! ## Concrete tables used by the end-to-end claims -/

/-- Patient P1 of the end-to-end example: DOB 2000-01-01, admitted
2024-01-05, discharged 2024-01-10, readmitted 1, condition Flu, outcome
Improved, hospital H1. -/
def exPatient : PatientRow :=
  ⟨some "P1", some ⟨2000, 1, 1⟩, some ⟨2024, 1, 5⟩, some ⟨2024, 1, 10⟩,
   some "F", some "Flu", some "H1", some 1, some "Improved"⟩

/-- Hospital H1, department General. -/
def exHospital : HospitalRow := ⟨some "H1", some "General"⟩

/-- Treatment row for Flu: type Antiviral, effectiveness 0.8. -/
def exTreatment : TreatmentRow := ⟨some "Flu", some "Antiviral", some (4 / 5)⟩

/-- The merged and cleaned table of the end-to-end example. -/
def exTable : List Row := clean (mergeAll [exPatient] [exHospital] [exTreatment])

/-! ## C1: the end-to-end example -/

/-- C1 (counterexample): the claimed end-to-end outputs do not all hold —
an age of 24 falls in the bucket (18,35], whose label is "Young Adult",
not "Adult", so the pipeline does not produce age group "Adult" for P1. -/
theorem C1_counterexample :
    ¬ (exTable.map ageOf = [some 24] ∧ exTable.map ageGroupOf = [some "Adult"] ∧
       exTable.map losOf = [some 5] ∧ readmission_rate exTable = some 1 ∧
       (avg_stay_condition exTable).lookup "Flu" = some (some 5) ∧
       (effectiveness_summary exTable).lookup "Antiviral" = some (some (4 / 5))) := by
  intro h
  have h2 := h.2.1
  have hg : exTable.map ageGroupOf = [some "Young Adult"] := by decide
  rw [hg] at h2
  exact absurd h2 (by decide)

/-- C1 (amended): on the example input the pipeline yields age 24, age
group "Young Adult" (the label of the bucket (18,35] that contains 24),
length of stay 5, readmission rate 1, mean stay 5 for Flu and mean
effectiveness 0.8 for Antiviral. -/
theorem C1_example_pipeline :
    exTable.map ageOf = [some 24] ∧ exTable.map ageGroupOf = [some "Young Adult"] ∧
    exTable.map losOf = [some 5] ∧ readmission_rate exTable = some 1 ∧
    (avg_stay_condition exTable).lookup "Flu" = some (some 5) ∧
    (effectiveness_summary exTable).lookup "Antiviral" = some (some (4 / 5)) := by
  refine ⟨by decide, by decide, by decide, ?_, ?_, ?_⟩
  · have h : readmission_rate exTable = meanQ [(1 : ℚ)] := rfl
    rw [h]
    norm_num [meanQ]
  · have h : (avg_stay_condition exTable).lookup "Flu" = some (meanQ [((5 : Int) : ℚ)]) := rfl
    rw [h]
    norm_num [meanQ]
  · have h : (effectiveness_summary exTable).lookup "Antiviral"
        = some (meanQ [(4 / 5 : ℚ)]) := rfl
    rw [h]
    norm_num [meanQ]

/-! ## C2: the age-group buckets -/

/-- C2: the age-group assignment applies the fixed half-open buckets
(0,18], (18,35], (35,50], (50,65], (65,100] with labels Child, Young
Adult, Adult, Middle Aged and Senior (upper bounds inclusive, so 18 is a
Child and 19 a Young Adult), and an age outside (0,100] gets no category
rather than an error. -/
theorem C2_age_group_buckets :
    (∀ r : Row, ageGroupOf r = (ageOf r).bind ageGroupOfAge) ∧
    ageGroupOfAge 18 = some "Child" ∧ ageGroupOfAge 19 = some "Young Adult" ∧
    ∀ a : Int,
      (ageGroupOfAge a = some "Child" ↔ 0 < a ∧ a ≤ 18) ∧
      (ageGroupOfAge a = some "Young Adult" ↔ 18 < a ∧ a ≤ 35) ∧
      (ageGroupOfAge a = some "Adult" ↔ 35 < a ∧ a ≤ 50) ∧
      (ageGroupOfAge a = some "Middle Aged" ↔ 50 < a ∧ a ≤ 65) ∧
      (ageGroupOfAge a = some "Senior" ↔ 65 < a ∧ a ≤ 100) ∧
      (ageGroupOfAge a = none ↔ a ≤ 0 ∨ 100 < a) := by
  refine ⟨fun r => rfl, by decide, by decide, fun a => ?_⟩
  unfold ageGroupOfAge
  split_ifs with h1 h2 h3 h4 h5 <;>
    refine ⟨?_, ?_, ?_, ?_, ?_, ?_⟩ <;>
    constructor <;>
    intro hx <;>
    first
      | omega
      | (exfalso; revert hx; decide)
      | rfl

/-! ## C6: length of stay -/

/-- C6: for a row whose admission and discharge dates are present, the
length of stay is exactly the day difference discharge minus admission —
no clamping, a negative difference passes through unchanged. -/
theorem C6_length_of_stay (r : Row) (a d : Date)
    (ha : r.adm = some a) (hd : r.dis = some d) :
    losOf r = some (d.toDays - a.toDays) := by
  unfold losOf
  rw [ha, hd]

/-! ## C3: the readmission rate -/

/-- On a table whose `Readmitted` cells are all present and 0/1, the
filtered column has the table's length and sums to the number of
readmitted rows. -/
theorem readm_stats :
    ∀ rs : List Row, (∀ r ∈ rs, r.readmitted = some 0 ∨ r.readmitted = some 1) →
      (rs.filterMap Row.readmitted).length = rs.length ∧
      (rs.filterMap Row.readmitted).sum
        = ((rs.countP fun r => decide (r.readmitted = some 1)) : ℚ)
  | [], _ => ⟨rfl, by simp⟩
  | r :: rs, h => by
    obtain ⟨h1, h2⟩ := readm_stats rs fun x hx => h x (List.mem_cons_of_mem _ hx)
    rcases h r (List.mem_cons_self r rs) with h0 | h0 <;>
      simp [List.filterMap_cons, h0, List.countP_cons, h1, h2] <;>
      push_cast <;>
      ring

/-- C3 (counterexample): on the empty table the code silently returns NaN
(modelled as `none`, the value `Series.mean` yields for an empty series) —
it does not raise an error and yields no numeric value. -/
theorem C3_counterexample :
    readmission_rate ([] : List Row) = none ∧
    ∀ q : ℚ, readmission_rate ([] : List Row) ≠ some q :=
  ⟨rfl, fun _ h => Option.noConfusion h⟩

/-- C3 (amended): on a non-empty table whose readmitted cells are all
present 0/1 indicators, the readmission rate is the count of readmitted=1
rows divided by the total row count, and any produced rate lies in [0,1];
on the empty table the code yields NaN (`none`), not a raised error. -/
theorem C3_readmission_rate :
    readmission_rate ([] : List Row) = none ∧
    ∀ rs : List Row, rs ≠ [] →
      (∀ r ∈ rs, r.readmitted = some 0 ∨ r.readmitted = some 1) →
      readmission_rate rs
        = some (((rs.countP fun r => decide (r.readmitted = some 1)) : ℚ) / (rs.length : ℚ)) ∧
      ∀ q, readmission_rate rs = some q → 0 ≤ q ∧ q ≤ 1 := by
  refine ⟨rfl, fun rs hne hvals => ?_⟩
  obtain ⟨hlen, hsum⟩ := readm_stats rs hvals
  have hpos : 0 < rs.length := List.length_pos.mpr hne
  have hrate : readmission_rate rs
      = some (((rs.countP fun r => decide (r.readmitted = some 1)) : ℚ) / (rs.length : ℚ)) := by
    unfold readmission_rate meanQ
    have hfe : (rs.filterMap Row.readmitted).isEmpty = false := by
      rw [List.isEmpty_eq_false]
      intro h0
      have hz : rs.length = 0 := by
        rw [← hlen, h0]
        rfl
      omega
    rw [hfe]
    simp only [Bool.false_eq_true, if_false, hsum, hlen]
  refine ⟨hrate, fun q hq => ?_⟩
  rw [hrate] at hq
  have hq' := Option.some.inj hq
  subst hq'
  constructor
  · apply div_nonneg
    · positivity
    · positivity
  · rw [div_le_one (by positivity)]
    exact_mod_cast List.countP_le_length _

/-- C3 witness: the single-row example table gives rate 1/1 via the
amended formula. -/
theorem C3_readmission_rate_witness :
    readmission_rate exTable
      = some (((exTable.countP fun r => decide (r.readmitted = some 1)) : ℚ)
          / (exTable.length : ℚ)) := by
  have hT : exTable
      = [⟨some "P1", some ⟨2000, 1, 1⟩, some ⟨2024, 1, 5⟩, some ⟨2024, 1, 10⟩, some "F",
          some "Flu", some "H1", some 1, some "Improved", some "General", some "Antiviral",
          some (4 / 5)⟩] := rfl
  have hne : exTable ≠ [] := by
    rw [hT]
    exact List.cons_ne_nil _ _
  have hvals : ∀ r ∈ exTable, r.readmitted = some 0 ∨ r.readmitted = some 1 := by
    rw [hT]
    intro r hr
    rw [List.mem_singleton.mp hr]
    exact Or.inr rfl
  exact ((C3_readmission_rate).2 exTable hne hvals).1

/-! ## C5: the two left outer joins -/

/-- The patient fields of an intermediate merged row. -/
def PHRow.patient (q : PHRow) : PatientRow :=
  ⟨q.pid, q.dob, q.adm, q.dis, q.gender, q.cond, q.hid, q.readmitted, q.outcome⟩

/-- Every row a patient contributes to the first join carries that
patient's fields unchanged. -/
theorem joinHospital_patient (p : PatientRow) (hs : List HospitalRow) :
    ∀ q ∈ joinHospital p hs, q.patient = p := by
  intro q hq
  unfold joinHospital at hq
  by_cases h : (hs.filter fun h => matchKey p.hid h.hid).isEmpty <;> simp [h] at hq
  · rw [hq]
    rfl
  · obtain ⟨x, _, hx⟩ := hq
    rw [← hx]
    rfl

/-- The first join emits one row per matching hospital row, or a single
null-filled row when nothing matches. -/
theorem joinHospital_length (p : PatientRow) (hs : List HospitalRow) :
    (joinHospital p hs).length = max 1 (hs.filter fun h => matchKey p.hid h.hid).length := by
  unfold joinHospital
  by_cases h : (hs.filter fun h => matchKey p.hid h.hid).isEmpty
  · rw [if_pos h]
    rw [List.isEmpty_iff] at h
    rw [h]
    rfl
  · rw [if_neg h]
    have hne : (hs.filter fun h => matchKey p.hid h.hid) ≠ [] := fun h0 => h (by rw [h0]; rfl)
    have hpos := List.length_pos.mpr hne
    rw [List.length_map]
    exact (max_eq_right hpos).symm

/-- Every row an intermediate row contributes to the second join carries
its fields unchanged. -/
theorem joinTreatment_ph (q : PHRow) (ts : List TreatmentRow) :
    ∀ r ∈ joinTreatment q ts, r.ph = q := by
  intro r hr
  unfold joinTreatment at hr
  by_cases h : (ts.filter fun t => matchKey q.cond t.cond).isEmpty <;> simp [h] at hr
  · rw [hr]
    rfl
  · obtain ⟨x, _, hx⟩ := hr
    rw [← hx]
    rfl

/-- The second join emits one row per matching treatment row (fan-out), or
a single null-filled row when nothing matches. -/
theorem joinTreatment_length (q : PHRow) (ts : List TreatmentRow) :
    (joinTreatment q ts).length = max 1 (ts.filter fun t => matchKey q.cond t.cond).length := by
  unfold joinTreatment
  by_cases h : (ts.filter fun t => matchKey q.cond t.cond).isEmpty
  · rw [if_pos h]
    rw [List.isEmpty_iff] at h
    rw [h]
    rfl
  · rw [if_neg h]
    have hne : (ts.filter fun t => matchKey q.cond t.cond) ≠ [] := fun h0 => h (by rw [h0]; rfl)
    have hpos := List.length_pos.mpr hne
    rw [List.length_map]
    exact (max_eq_right hpos).symm

/-- C5: the Merger is a left outer join of patients to hospitals on the
hospital id followed by a left outer join to treatments on the condition,
with exact-equality key matching (two missing keys compare equal, as in
pandas key factorization): every patient row survives into the result, an
unmatched row gets null right-side fields, and a row whose condition
matches k treatment rows appears k times. -/
theorem C5_merge_left_joins :
    (∀ a b : Option String, matchKey a b = true ↔ a = b) ∧
    ∀ (ps : List PatientRow) (hs : List HospitalRow) (ts : List TreatmentRow),
      (mergeAll ps hs ts
        = (ps.flatMap fun p => joinHospital p hs).flatMap fun q => joinTreatment q ts) ∧
      (∀ p ∈ ps, ∃ r ∈ mergeAll ps hs ts, r.patient = p) ∧
      (∀ p, (joinHospital p hs).length
        = max 1 (hs.filter fun h => matchKey p.hid h.hid).length) ∧
      (∀ p, ∀ q ∈ joinHospital p hs, q.patient = p) ∧
      (∀ p : PatientRow, (hs.filter fun h => matchKey p.hid h.hid) = [] →
        joinHospital p hs
          = [⟨p.pid, p.dob, p.adm, p.dis, p.gender, p.cond, p.hid, p.readmitted, p.outcome,
              none⟩]) ∧
      (∀ q, (joinTreatment q ts).length
        = max 1 (ts.filter fun t => matchKey q.cond t.cond).length) ∧
      (∀ q, ∀ r ∈ joinTreatment q ts, r.ph = q) ∧
      (∀ q : PHRow, (ts.filter fun t => matchKey q.cond t.cond) = [] →
        joinTreatment q ts
          = [⟨q.pid, q.dob, q.adm, q.dis, q.gender, q.cond, q.hid, q.readmitted, q.outcome,
              q.dept, none, none⟩]) := by
  constructor
  · intro a b
    constructor
    · intro h
      exact eq_of_beq h
    · intro h
      exact beq_of_eq h
  · intro ps hs ts
    refine ⟨rfl, ?_, fun p => joinHospital_length p hs, fun p => joinHospital_patient p hs,
      ?_, fun q => joinTreatment_length q ts, fun q => joinTreatment_ph q ts, ?_⟩
    · intro p hp
      have hq : ∃ q, q ∈ joinHospital p hs := by
        apply List.exists_mem_of_length_pos
        rw [joinHospital_length]
        omega
      obtain ⟨q, hq⟩ := hq
      have hr : ∃ r, r ∈ joinTreatment q ts := by
        apply List.exists_mem_of_length_pos
        rw [joinTreatment_length]
        omega
      obtain ⟨r, hr⟩ := hr
      refine ⟨r, ?_, ?_⟩
      · unfold mergeAll mergeTreat mergePH
        rw [List.mem_flatMap]
        exact ⟨q, List.mem_flatMap.mpr ⟨p, hp, hq⟩, hr⟩
      · have h1 := joinTreatment_ph q ts r hr
        have h2 := joinHospital_patient p hs q hq
        have h3 : r.patient = r.ph.patient := rfl
        rw [h3, h1, h2]
    · intro p hfil
      unfold joinHospital
      rw [hfil]
      rfl
    · intro q hfil
      unfold joinTreatment
      rw [hfil]
      rfl

/-- C5 witness: the example patient survives the two joins. -/
theorem C5_merge_left_joins_witness :
    ∃ r ∈ mergeAll [exPatient] [exHospital] [exTreatment], r.patient = exPatient :=
  ((C5_merge_left_joins).2 [exPatient] [exHospital] [exTreatment]).2.1 exPatient
    (List.mem_cons_self _ _)

/-! ## C4: recommended interventions -/

/-- `argmaxFirst` returns `none` exactly on the empty list. -/
theorem argmaxFirst_eq_none_iff (cnt : String → Nat) :
    ∀ xs : List String, argmaxFirst cnt xs = none ↔ xs = [] := by
  intro xs
  cases xs with
  | nil => simp [argmaxFirst]
  | cons x xs =>
    simp only [argmaxFirst]
    cases hrec : argmaxFirst cnt xs <;> simp
    split_ifs <;> simp

/-- A result of `argmaxFirst` is a member of the list of maximal score —
the two properties every admissible resolution of equal scores shares. -/
theorem argmaxFirst_spec (cnt : String → Nat) :
    ∀ (xs : List String) (y : String), argmaxFirst cnt xs = some y →
      y ∈ xs ∧ ∀ z ∈ xs, cnt z ≤ cnt y
  | [], y, h => by simp [argmaxFirst] at h
  | x :: xs, y, h => by
    cases hrec : argmaxFirst cnt xs with
    | none =>
      have hnil : xs = [] := (argmaxFirst_eq_none_iff cnt xs).mp hrec
      subst hnil
      simp only [argmaxFirst] at h
      have hxy : x = y := Option.some.inj h
      subst hxy
      exact ⟨List.mem_cons_self x [], by simp⟩
    | some y0 =>
      obtain ⟨hmem, hle⟩ := argmaxFirst_spec cnt xs y0 hrec
      simp only [argmaxFirst, hrec] at h
      by_cases hcnt : cnt x < cnt y0
      · rw [if_pos hcnt] at h
        have hy : y0 = y := Option.some.inj h
        subst hy
        refine ⟨List.mem_cons_of_mem x hmem, ?_⟩
        intro z hz
        rcases List.mem_cons.mp hz with hz | hz
        · rw [hz]
          exact le_of_lt hcnt
        · exact hle z hz
      · rw [if_neg hcnt] at h
        have hy : x = y := Option.some.inj h
        subst hy
        refine ⟨List.mem_cons_self x xs, ?_⟩
        intro z hz
        rcases List.mem_cons.mp hz with hz | hz
        · rw [hz]
        · exact (hle z hz).trans (le_of_not_lt hcnt)

/-- Looking a key up in a keyed map of a list containing it yields the
mapped value. -/
theorem lookup_map_self {κ v : Type _} [BEq κ] [LawfulBEq κ] (l : List κ) (f : κ → v)
    (k : κ) (hk : k ∈ l) :
    List.lookup k (l.map fun x => (x, f x)) = some (f k) := by
  induction l with
  | nil => cases hk
  | cons a l ih =>
    by_cases hb : (k == a) = true
    · have hka : k = a := eq_of_beq hb
      subst hka
      simp [List.lookup]
    · have hk' : k ∈ l := by
        rcases List.mem_cons.mp hk with h | h
        · exact absurd (beq_of_eq h) (by exact hb)
        · exact h
      simp only [List.map_cons, List.lookup, hb]
      exact ih hk'

/-- The treatment types, in table order, of the readmitted rows carrying a
given condition — the series `value_counts` ranks inside
`interventions`. -/
def readmittedTypes (rs : List Row) (c : String) : List String :=
  ((rs.filter fun r => decide (r.readmitted = some 1)).filter
    fun r => decide (r.cond = some c)).filterMap Row.ttype

/-- A readmitted Flu row whose treatment type is missing. -/
def exNullType : Row :=
  ⟨some "P2", none, none, none, none, some "Flu", none, some 1, none, none, none, none⟩

/-- C4 (counterexample): a condition all of whose readmitted rows lack a
treatment type is mapped to no treatment type at all — the source's
`value_counts().index[0]` raises `IndexError` there (modelled as `none`),
so the claim's "maps that condition to the most frequent treatment type"
fails for this input. -/
theorem C4_counterexample :
    (interventions [exNullType]).lookup "Flu" = some none ∧
    ∀ t : String, (interventions [exNullType]).lookup "Flu" ≠ some (some t) := by
  have h : (interventions [exNullType]).lookup "Flu" = some none := rfl
  refine ⟨h, fun t ht => ?_⟩
  rw [h] at ht
  exact Option.noConfusion (Option.some.inj ht)

/-- C4 (amended): for every condition having at least one readmitted row
with a present treatment type, `interventions` maps the condition to a
treatment type that occurs among those rows with maximal occurrence
count.  Which of several equally frequent types is chosen is not a fixed
documented rule of the source (`value_counts` tie order is unspecified),
so only maximality and membership are asserted.  (When such rows exist
but every treatment type is missing, the source raises instead of
producing a value.) -/
theorem C4_interventions (rs : List Row) (c : String)
    (h : ∃ r ∈ rs, r.readmitted = some 1 ∧ r.cond = some c ∧ r.ttype.isSome = true) :
    ∃ t,
      (interventions rs).lookup c = some (some t) ∧
      t ∈ readmittedTypes rs c ∧
      ∀ z ∈ readmittedTypes rs c,
        countOcc (readmittedTypes rs c) z ≤ countOcc (readmittedTypes rs c) t := by
  obtain ⟨r, hr, hre, hc, hty⟩ := h
  obtain ⟨t0, ht0⟩ := Option.isSome_iff_exists.mp hty
  have hr1 : r ∈ rs.filter fun r => decide (r.readmitted = some 1) :=
    List.mem_filter.mpr ⟨hr, decide_eq_true hre⟩
  have hr2 : r ∈ (rs.filter fun r => decide (r.readmitted = some 1)).filter
      fun r => decide (r.cond = some c) :=
    List.mem_filter.mpr ⟨hr1, decide_eq_true hc⟩
  have htypes : t0 ∈ readmittedTypes rs c :=
    List.mem_filterMap.mpr ⟨r, hr2, ht0⟩
  have hne : readmittedTypes rs c ≠ [] := fun h0 => by
    rw [h0] at htypes
    cases htypes
  have hkey : c ∈ keyList Row.cond (rs.filter fun r => decide (r.readmitted = some 1)) := by
    unfold keyList
    rw [(List.perm_insertionSort _ _).mem_iff, List.mem_dedup]
    exact List.mem_filterMap.mpr ⟨r, hr1, hc⟩
  have hlook : (interventions rs).lookup c
      = some (topValue (readmittedTypes rs c)) := by
    unfold interventions groupBy
    exact lookup_map_self _ _ c hkey
  cases htop : topValue (readmittedTypes rs c) with
  | none =>
    exact absurd ((argmaxFirst_eq_none_iff _ _).mp htop) hne
  | some t =>
    obtain ⟨hmem, hle⟩ := argmaxFirst_spec _ _ t htop
    rw [htop] at hlook
    exact ⟨t, hlook, hmem, hle⟩

/-- C4 witness: on the example table, Flu is mapped to Antiviral, the only
(hence maximally frequent) treatment type. -/
theorem C4_interventions_witness :
    ∃ t,
      (interventions exTable).lookup "Flu" = some (some t) ∧
      t ∈ readmittedTypes exTable "Flu" ∧
      ∀ z ∈ readmittedTypes exTable "Flu",
        countOcc (readmittedTypes exTable "Flu") z
          ≤ countOcc (readmittedTypes exTable "Flu") t := by
  apply C4_interventions exTable "Flu"
  have hT : exTable
      = [⟨some "P1", some ⟨2000, 1, 1⟩, some ⟨2024, 1, 5⟩, some ⟨2024, 1, 10⟩, some "F",
          some "Flu", some "H1", some 1, some "Improved", some "General", some "Antiviral",
          some (4 / 5)⟩] := rfl
  rw [hT]
  exact ⟨_, List.mem_cons_self _ _, rfl, rfl, rfl⟩

/-! ## C7: forward fill -/

/-- What the spec asks of a forward-filled column, stated against the
original column: lengths agree, present cells are unchanged, a missing
cell takes the value of the nearest preceding present cell, and a missing
cell with no preceding present cell stays missing. -/
@[reducible] def forwardFilledSpec {α : Type _} (col res : List (Option α)) : Prop :=
  col.length = res.length ∧
  (∀ (i : Nat) (v : α), col[i]? = some (some v) → res[i]? = some (some v)) ∧
  (∀ (i j : Nat) (v : α), j ≤ i → col[i]? = some none → col[j]? = some (some v) →
    (∀ l : Nat, j < l → l ≤ i → col[l]? = some none) → res[i]? = some (some v)) ∧
  ∀ i : Nat, i < col.length → (∀ j : Nat, j ≤ i → col[j]? = some none) → res[i]? = some none

/-- Forward fill preserves the column's length. -/
theorem ffillAux_length {α : Type _} :
    ∀ (col : List (Option α)) (last : Option α), (ffillAux last col).length = col.length
  | [], _ => rfl
  | _ :: cs, last => by simp [ffillAux, ffillAux_length cs]

/-- A present cell survives forward fill unchanged. -/
theorem ffillAux_keep {α : Type _} :
    ∀ (col : List (Option α)) (last : Option α) (i : Nat) (v : α),
      col[i]? = some (some v) → (ffillAux last col)[i]? = some (some v)
  | [], _, i, v, h => by simp at h
  | c :: cs, last, 0, v, h => by
    have hc : c = some v := by simpa using h
    simp [ffillAux, hc, fillCell]
  | c :: cs, last, i + 1, v, h => by
    simp only [List.getElem?_cons_succ] at h
    simpa [ffillAux] using ffillAux_keep cs (fillCell c last) i v h
  termination_by col => col.length

/-- Over a stretch of missing cells, forward fill propagates the carried
value unchanged. -/
theorem ffillAux_carry {α : Type _} :
    ∀ (col : List (Option α)) (a : Option α) (i : Nat), i < col.length →
      (∀ l, l ≤ i → col[l]? = some none) → (ffillAux a col)[i]? = some a
  | [], _, i, hi, _ => by simp at hi
  | c :: cs, a, 0, _, h => by
    have hc : c = none := by simpa using h 0 (le_refl 0)
    simp [ffillAux, hc, fillCell]
  | c :: cs, a, i + 1, hi, h => by
    have hc : c = none := by simpa using h 0 (Nat.zero_le _)
    have h' : ∀ l, l ≤ i → cs[l]? = some none := fun l hl => by
      have := h (l + 1) (by omega)
      simpa using this
    have hi' : i < cs.length := by simpa using hi
    have := ffillAux_carry cs (fillCell c a) i hi' h'
    simpa [ffillAux, hc, fillCell] using this
  termination_by col => col.length

/-- A missing cell whose nearest preceding present cell holds `v` is
filled with `v`. -/
theorem ffillAux_nearest {α : Type _} :
    ∀ (col : List (Option α)) (last : Option α) (i j : Nat) (v : α), j ≤ i →
      col[i]? = some none → col[j]? = some (some v) →
      (∀ l, j < l → l ≤ i → col[l]? = some none) →
      (ffillAux last col)[i]? = some (some v)
  | [], _, i, j, v, _, hi, _, _ => by simp at hi
  | c :: cs, last, i, 0, v, hji, hi, hj, hbet => by
    have hc : c = some v := by simpa using hj
    cases i with
    | zero =>
      rw [hi] at hj
      exact Option.noConfusion (Option.some.inj hj)
    | succ i' =>
      have hbet' : ∀ l, l ≤ i' → cs[l]? = some none := fun l hl => by
        have := hbet (l + 1) (by omega) (by omega)
        simpa using this
      have hi' : i' < cs.length := by
        by_contra hlt
        have : cs[i']? = none := List.getElem?_eq_none (by omega)
        rw [List.getElem?_cons_succ, this] at hi
        exact Option.noConfusion hi
      have := ffillAux_carry cs (fillCell c last) i' hi' hbet'
      simp only [hc, fillCell] at this
      simpa [ffillAux, hc, fillCell] using this
  | c :: cs, last, i, j + 1, v, hji, hi, hj, hbet => by
    cases i with
    | zero => omega
    | succ i' =>
      simp only [List.getElem?_cons_succ] at hi hj
      have hbet' : ∀ l, j < l → l ≤ i' → cs[l]? = some none := fun l h1 h2 => by
        have := hbet (l + 1) (by omega) (by omega)
        simpa using this
      have := ffillAux_nearest cs (fillCell c last) i' j v (by omega) hi hj hbet'
      simpa [ffillAux] using this
  termination_by col => col.length

/-- The code's forward fill satisfies the spec's description of forward
fill, column by column. -/
theorem ffillCol_spec {α : Type _} (col : List (Option α)) :
    forwardFilledSpec col (ffillCol col) :=
  ⟨(ffillAux_length col none).symm,
   fun i v h => ffillAux_keep col none i v h,
   fun i j v hji hi hj hbet => ffillAux_nearest col none i j v hji hi hj hbet,
   fun i hi h => by
     have := ffillAux_carry col none i hi h
     simpa using this⟩

/-- Row-threaded cleaning equals column-wise forward fill under any field
projection that commutes with the per-row fill. -/
theorem cleanAux_map {β : Type _} (p : Row → Option β)
    (hp : ∀ l r, p (combineRow l r) = fillCell (p r) (p l)) :
    ∀ (rs : List Row) (last : Row),
      (cleanAux last rs).map p = ffillAux (p last) (rs.map p)
  | [], _ => rfl
  | r :: rs, last => by
    simp only [cleanAux, ffillAux, List.map_cons, hp,
      cleanAux_map p hp rs (combineRow last r)]

/-- The Cleaner forward-fills each column of the table. -/
theorem clean_map {β : Type _} (p : Row → Option β)
    (hp : ∀ l r, p (combineRow l r) = fillCell (p r) (p l))
    (h0 : p emptyRow = none) (rs : List Row) :
    (clean rs).map p = ffillCol (rs.map p) := by
  unfold clean ffillCol
  rw [cleanAux_map p hp, h0]

/-- C7: after cleaning, every column of the table is forward-filled as the
spec describes: missing cells take the nearest preceding present value of
their column, leading missing cells stay missing, present cells are
untouched. -/
theorem C7_forward_fill (rs : List Row) :
    forwardFilledSpec (rs.map Row.pid) ((clean rs).map Row.pid) ∧
    forwardFilledSpec (rs.map Row.dob) ((clean rs).map Row.dob) ∧
    forwardFilledSpec (rs.map Row.adm) ((clean rs).map Row.adm) ∧
    forwardFilledSpec (rs.map Row.dis) ((clean rs).map Row.dis) ∧
    forwardFilledSpec (rs.map Row.gender) ((clean rs).map Row.gender) ∧
    forwardFilledSpec (rs.map Row.cond) ((clean rs).map Row.cond) ∧
    forwardFilledSpec (rs.map Row.hid) ((clean rs).map Row.hid) ∧
    forwardFilledSpec (rs.map Row.readmitted) ((clean rs).map Row.readmitted) ∧
    forwardFilledSpec (rs.map Row.outcome) ((clean rs).map Row.outcome) ∧
    forwardFilledSpec (rs.map Row.dept) ((clean rs).map Row.dept) ∧
    forwardFilledSpec (rs.map Row.ttype) ((clean rs).map Row.ttype) ∧
    forwardFilledSpec (rs.map Row.eff) ((clean rs).map Row.eff) := by
  refine ⟨?_, ?_, ?_, ?_, ?_, ?_, ?_, ?_, ?_, ?_, ?_, ?_⟩ <;>
    · rw [clean_map _ (fun l r => rfl) rfl]
      exact ffillCol_spec _

/-! ## C8 and C10: keys of the grouped aggregates -/

/-- A key appears in a groupby index iff some row carries it. -/
theorem mem_keyList_iff {κ : Type _} [DecidableEq κ] [LinearOrder κ] (key : Row → Option κ)
    (rs : List Row) (k : κ) :
    k ∈ keyList key rs ↔ ∃ r ∈ rs, key r = some k := by
  unfold keyList
  rw [(List.perm_insertionSort _ _).mem_iff, List.mem_dedup, List.mem_filterMap]

/-- A key appears in a grouped aggregate iff some row carries it. -/
theorem mem_groupBy_iff {κ v : Type _} [DecidableEq κ] [LinearOrder κ] (key : Row → Option κ)
    (agg : List Row → v) (rs : List Row) (k : κ) :
    (∃ w, (k, w) ∈ groupBy key agg rs) ↔ ∃ r ∈ rs, key r = some k := by
  unfold groupBy
  constructor
  · rintro ⟨w, hw⟩
    obtain ⟨k', hk', hpair⟩ := List.mem_map.mp hw
    have hk : k' = k := (Prod.ext_iff.mp hpair).1
    rw [hk] at hk'
    exact (mem_keyList_iff key rs k).mp hk'
  · intro h
    exact ⟨agg (rs.filter fun r => decide (key r = some k)),
      List.mem_map.mpr ⟨k, (mem_keyList_iff key rs k).mpr h, rfl⟩⟩

/-- C8: each grouped aggregate contains a key exactly when some row of the
enriched table carries that key; a key with no rows is absent rather than
present with value zero, so every group that is aggregated is non-empty. -/
theorem C8_group_keys (rs : List Row) (k : Nat) (c : String) :
    ((∃ v, (k, v) ∈ admission_trend rs) ↔ ∃ r ∈ rs, admMonthOf r = some k) ∧
    ((∃ v, (k, v) ∈ discharge_trend rs) ↔ ∃ r ∈ rs, disMonthOf r = some k) ∧
    ((∃ v, (c, v) ∈ avg_stay_condition rs) ↔ ∃ r ∈ rs, r.cond = some c) ∧
    ((∃ v, (c, v) ∈ avg_stay_department rs) ↔ ∃ r ∈ rs, r.dept = some c) ∧
    ((∃ v, (c, v) ∈ readmission_by_condition rs) ↔ ∃ r ∈ rs, r.cond = some c) ∧
    ((∃ v, (c, v) ∈ outcome_segment rs) ↔ ∃ r ∈ rs, r.outcome = some c) ∧
    ((∃ v, (c, v) ∈ effectiveness_summary rs) ↔ ∃ r ∈ rs, r.ttype = some c) :=
  ⟨mem_groupBy_iff _ _ rs k, mem_groupBy_iff _ _ rs k, mem_groupBy_iff _ _ rs c,
   mem_groupBy_iff _ _ rs c, mem_groupBy_iff _ _ rs c, mem_groupBy_iff _ _ rs c,
   mem_groupBy_iff _ _ rs c⟩

/-- The keys of a grouped aggregate, in order. -/
theorem groupBy_map_fst {κ v : Type _} [DecidableEq κ] [LinearOrder κ] (key : Row → Option κ)
    (agg : List Row → v) (rs : List Row) :
    (groupBy key agg rs).map Prod.fst = keyList key rs := by
  unfold groupBy
  rw [List.map_map]
  exact List.map_id _

/-- The groupby index is strictly sorted. -/
theorem keyList_sorted {κ : Type _} [DecidableEq κ] [LinearOrder κ] (key : Row → Option κ)
    (rs : List Row) :
    List.Sorted (· < ·) (keyList key rs) := by
  have hs : List.Sorted (· ≤ ·) (keyList key rs) := List.sorted_insertionSort _ _
  have hn : (keyList key rs).Nodup :=
    ((List.perm_insertionSort _ _).nodup_iff).mpr (List.nodup_dedup _)
  exact hs.lt_of_le hn

/-- The groupby index does not depend on the row order of the table. -/
theorem keyList_perm {κ : Type _} [DecidableEq κ] [LinearOrder κ] (key : Row → Option κ)
    {rs rs2 : List Row} (h : rs.Perm rs2) :
    keyList key rs = keyList key rs2 := by
  have hperm : (keyList key rs).Perm (keyList key rs2) :=
    ((List.perm_insertionSort _ _).trans ((h.filterMap key).dedup)).trans
      (List.perm_insertionSort _ _).symm
  exact List.eq_of_perm_of_sorted hperm (List.sorted_insertionSort _ _)
    (List.sorted_insertionSort _ _)

/-- C10: every grouped aggregate lists its keys in strictly ascending
order, and that key sequence is unchanged under any permutation of the
table's rows. -/
theorem C10_sorted_keys (rs rs2 : List Row) (h : rs.Perm rs2) :
    (List.Sorted (· < ·) ((admission_trend rs).map Prod.fst) ∧
      (admission_trend rs).map Prod.fst = (admission_trend rs2).map Prod.fst) ∧
    (List.Sorted (· < ·) ((discharge_trend rs).map Prod.fst) ∧
      (discharge_trend rs).map Prod.fst = (discharge_trend rs2).map Prod.fst) ∧
    (List.Sorted (· < ·) ((avg_stay_condition rs).map Prod.fst) ∧
      (avg_stay_condition rs).map Prod.fst = (avg_stay_condition rs2).map Prod.fst) ∧
    (List.Sorted (· < ·) ((avg_stay_department rs).map Prod.fst) ∧
      (avg_stay_department rs).map Prod.fst = (avg_stay_department rs2).map Prod.fst) ∧
    (List.Sorted (· < ·) ((readmission_by_condition rs).map Prod.fst) ∧
      (readmission_by_condition rs).map Prod.fst
        = (readmission_by_condition rs2).map Prod.fst) ∧
    (List.Sorted (· < ·) ((outcome_segment rs).map Prod.fst) ∧
      (outcome_segment rs).map Prod.fst = (outcome_segment rs2).map Prod.fst) ∧
    (List.Sorted (· < ·) ((effectiveness_summary rs).map Prod.fst) ∧
      (effectiveness_summary rs).map Prod.fst = (effectiveness_summary rs2).map Prod.fst) := by
  unfold admission_trend discharge_trend avg_stay_condition avg_stay_department
    readmission_by_condition outcome_segment effectiveness_summary
  refine ⟨?_, ?_, ?_, ?_, ?_, ?_, ?_⟩ <;>
    · constructor
      · rw [groupBy_map_fst]
        exact keyList_sorted _ _
      · rw [groupBy_map_fst, groupBy_map_fst]
        exact keyList_perm _ h

/-- A merged row admitted in January. -/
def exRowJan : Row :=
  ⟨some "P1", some ⟨2000, 1, 1⟩, some ⟨2024, 1, 5⟩, some ⟨2024, 1, 10⟩, some "F",
   some "Flu", some "H1", some 1, some "Improved", some "General", some "Antiviral", none⟩

/-- A merged row admitted in June. -/
def exRowJun : Row :=
  ⟨some "P2", some ⟨1990, 1, 1⟩, some ⟨2024, 6, 1⟩, some ⟨2024, 6, 3⟩, some "M",
   some "Cold", some "H1", some 0, some "Unchanged", some "General", none, none⟩

/-- C10 witness: on a concrete two-row table and the transposition of its
rows, the admission-trend keys are strictly sorted and identical. -/
theorem C10_sorted_keys_witness :
    List.Sorted (· < ·) ((admission_trend [exRowJan, exRowJun]).map Prod.fst) ∧
    (admission_trend [exRowJan, exRowJun]).map Prod.fst
      = (admission_trend [exRowJun, exRowJan]).map Prod.fst :=
  (C10_sorted_keys [exRowJan, exRowJun] [exRowJun, exRowJan] (List.Perm.swap _ _ _)).1

/-- A first row carrying condition Flu. -/
def exFill0 : Row :=
  ⟨some "P1", none, none, none, none, some "Flu", none, none, none, none, none, none⟩

/-- A second row with a missing condition, to be filled from the first. -/
def exFill1 : Row :=
  ⟨some "P2", none, none, none, none, none, none, none, none, none, none, none⟩

/-- C7 witness: the second row's missing condition is filled with "Flu",
the nearest preceding present value of the condition column. -/
theorem C7_forward_fill_witness :
    ((clean [exFill0, exFill1]).map Row.cond)[1]? = some (some "Flu") := by
  have h := (C7_forward_fill [exFill0, exFill1]).2.2.2.2.2.1
  apply h.2.2.1 1 0 "Flu" (by omega) (by decide) (by decide)
  intro l h1 h2
  have hl : l = 1 := by omega
  rw [hl]
  decide

/-- A row admitted 2024-01-10 and discharged 2024-01-15. -/
def exStay : Row :=
  ⟨none, none, some ⟨2024, 1, 10⟩, some ⟨2024, 1, 15⟩, none, none, none, none, none,
   none, none, none⟩

/-- A row admitted 2024-01-15 and discharged 2024-01-10 (dates reversed). -/
def exStayNeg : Row :=
  ⟨none, none, some ⟨2024, 1, 15⟩, some ⟨2024, 1, 10⟩, none, none, none, none, none,
   none, none, none⟩

/-- C6 witness: the example row gives length of stay 5; the reversed row
gives -5, showing that negative differences are not clamped. -/
theorem C6_length_of_stay_witness :
    losOf exStay = some (Date.toDays ⟨2024, 1, 15⟩ - Date.toDays ⟨2024, 1, 10⟩) ∧
    losOf exStay = some 5 ∧ losOf exStayNeg = some (-5) :=
  ⟨C6_length_of_stay exStay ⟨2024, 1, 10⟩ ⟨2024, 1, 15⟩ rfl rfl, by decide, by decide⟩

/-! ## C9: export, reload, recompute -/

/-- The character of a decimal digit. -/
def digitChar (d : Nat) : Char := Char.ofNat (48 + d)

/-- The decimal digit of a character. -/
def charVal (c : Char) : Nat := c.toNat - 48

/-- The decimal notation of a natural number, most significant digit
first — the text a CSV cell holds for a numeric field. -/
def natChars (n : Nat) : List Char :=
  if n = 0 then ['0'] else (Nat.digits 10 n).reverse.map digitChar

/-- Parse decimal notation back to a natural number. -/
def toNum (cs : List Char) : Nat :=
  Nat.ofDigits 10 ((cs.map charVal).reverse)

/-- True on every character except the CSV field separator. -/
def notComma (c : Char) : Bool := !(c == ',')

/-- The CSV text of an optional date cell: empty for a missing value,
year-month-day in decimal otherwise. -/
def encDate : Option Date → List Char
  | none => []
  | some dt => natChars dt.y ++ '-' :: (natChars dt.m ++ '-' :: natChars dt.d)

/-- Parse the CSV text of a date cell: an empty cell is a missing value,
otherwise three dash-separated decimal runs. -/
def decDate (cs : List Char) : Option Date :=
  if cs.isEmpty then none
  else
    let a := cs.takeWhile Char.isDigit
    let r1 := cs.dropWhile Char.isDigit
    if r1.head? = some '-' then
      let b := r1.tail.takeWhile Char.isDigit
      let r3 := r1.tail.dropWhile Char.isDigit
      if r3.head? = some '-' then
        if r3.tail ≠ [] ∧ r3.tail.all Char.isDigit then
          some ⟨toNum a, toNum b, toNum r3.tail⟩
        else none
      else none
    else none

/-- The exported CSV text of the date columns of a row (date of birth,
admission date, discharge date, comma-separated) — the fields from which
the derived columns are recomputed after a reload. -/
def exportRow (r : Row) : List Char :=
  encDate r.dob ++ ',' :: (encDate r.adm ++ ',' :: encDate r.dis)

/-- `df.to_csv(...)` on the enriched table: one line of text per row. -/
def exportTable (rs : List Row) : List (List Char) :=
  rs.map exportRow

/-- Re-read one exported line into its three date cells. -/
def reloadRow (cs : List Char) : Option Date × Option Date × Option Date :=
  let f1 := cs.takeWhile notComma
  let r1 := cs.dropWhile notComma
  if r1.head? = some ',' then
    let f2 := r1.tail.takeWhile notComma
    let r3 := r1.tail.dropWhile notComma
    if r3.head? = some ',' then (decDate f1, decDate f2, decDate r3.tail)
    else (none, none, none)
  else (none, none, none)

/-- Recompute the derived columns (age, age group, length of stay) from
reloaded date cells, with the same fixed reference date. -/
def recomputeDerived (t : Option Date × Option Date × Option Date) :
    Option Int × Option String × Option Int :=
  (t.1.map ageOfDob, (t.1.map ageOfDob).bind ageGroupOfAge,
   match t.2.1, t.2.2 with
   | some a, some d => some (d.toDays - a.toDays)
   | _, _ => none)

/-- Digit characters are digits. -/
theorem digitChar_isDigit : ∀ d : Nat, d < 10 → (digitChar d).isDigit = true := by decide

/-- Reading back a digit character yields the digit. -/
theorem charVal_digitChar : ∀ d : Nat, d < 10 → charVal (digitChar d) = d := by decide

/-- Decimal notation consists of digit characters. -/
theorem natChars_isDigit (n : Nat) : ∀ c ∈ natChars n, c.isDigit = true := by
  intro c hc
  unfold natChars at hc
  by_cases hn : n = 0
  · rw [if_pos hn] at hc
    rw [List.mem_singleton.mp hc]
    decide
  · rw [if_neg hn] at hc
    obtain ⟨d, hd, hdc⟩ := List.mem_map.mp hc
    rw [← hdc]
    exact digitChar_isDigit d
      (Nat.digits_lt_base (by norm_num) (List.mem_reverse.mp hd))

/-- Decimal notation is never empty. -/
theorem natChars_ne_nil (n : Nat) : natChars n ≠ [] := by
  unfold natChars
  by_cases hn : n = 0
  · rw [if_pos hn]
    exact List.cons_ne_nil _ _
  · rw [if_neg hn]
    intro h0
    rw [List.map_eq_nil_iff, List.reverse_eq_nil_iff] at h0
    exact Nat.digits_ne_nil_iff_ne_zero.mpr hn h0

/-- Parsing decimal notation recovers the number. -/
theorem toNum_natChars (n : Nat) : toNum (natChars n) = n := by
  by_cases hn : n = 0
  · rw [hn]
    decide
  · unfold toNum natChars
    rw [if_neg hn, List.map_map]
    have hmap : (Nat.digits 10 n).reverse.map (charVal ∘ digitChar)
        = (Nat.digits 10 n).reverse := by
      conv_rhs => rw [← List.map_id ((Nat.digits 10 n).reverse)]
      apply List.map_congr_left
      intro d hd
      exact charVal_digitChar d (Nat.digits_lt_base (by norm_num) (List.mem_reverse.mp hd))
    rw [hmap, List.reverse_reverse, Nat.ofDigits_digits]

/-- `takeWhile` stops exactly at the first failing character. -/
theorem takeWhile_append_cons (p : Char → Bool) :
    ∀ (l1 : List Char) (x : Char) (l2 : List Char),
      (∀ c ∈ l1, p c = true) → p x = false → (l1 ++ x :: l2).takeWhile p = l1
  | [], x, l2, _, hx => by simp [List.takeWhile_cons, hx]
  | c :: l1, x, l2, h, hx => by
    have hc : p c = true := h c (List.mem_cons_self c l1)
    simp only [List.cons_append, List.takeWhile_cons, hc, if_true]
    rw [takeWhile_append_cons p l1 x l2 (fun d hd => h d (List.mem_cons_of_mem _ hd)) hx]

/-- `dropWhile` drops exactly up to the first failing character. -/
theorem dropWhile_append_cons (p : Char → Bool) :
    ∀ (l1 : List Char) (x : Char) (l2 : List Char),
      (∀ c ∈ l1, p c = true) → p x = false → (l1 ++ x :: l2).dropWhile p = x :: l2
  | [], x, l2, _, hx => by simp [List.dropWhile_cons, hx]
  | c :: l1, x, l2, h, hx => by
    have hc : p c = true := h c (List.mem_cons_self c l1)
    simp only [List.cons_append, List.dropWhile_cons, hc, if_true]
    exact dropWhile_append_cons p l1 x l2 (fun d hd => h d (List.mem_cons_of_mem _ hd)) hx

/-- Parsing the printed form of a date cell recovers the cell. -/
theorem decDate_encDate : ∀ od : Option Date, decDate (encDate od) = od
  | none => rfl
  | some ⟨y, m, d⟩ => by
    have h0 : (natChars y ++ '-' :: (natChars m ++ '-' :: natChars d)).isEmpty = false := by
      rw [List.isEmpty_eq_false]
      intro hx
      exact natChars_ne_nil y (List.append_eq_nil.mp hx).1
    have h1 : (natChars y ++ '-' :: (natChars m ++ '-' :: natChars d)).takeWhile Char.isDigit
        = natChars y :=
      takeWhile_append_cons _ _ _ _ (natChars_isDigit y) (by decide)
    have h2 : (natChars y ++ '-' :: (natChars m ++ '-' :: natChars d)).dropWhile Char.isDigit
        = '-' :: (natChars m ++ '-' :: natChars d) :=
      dropWhile_append_cons _ _ _ _ (natChars_isDigit y) (by decide)
    have h3 : (natChars m ++ '-' :: natChars d).takeWhile Char.isDigit = natChars m :=
      takeWhile_append_cons _ _ _ _ (natChars_isDigit m) (by decide)
    have h4 : (natChars m ++ '-' :: natChars d).dropWhile Char.isDigit = '-' :: natChars d :=
      dropWhile_append_cons _ _ _ _ (natChars_isDigit m) (by decide)
    have h5 : natChars d ≠ [] := natChars_ne_nil d
    have h6 : (natChars d).all Char.isDigit = true :=
      List.all_eq_true.mpr fun c hc => natChars_isDigit d c hc
    simp only [encDate, decDate, h0, h1, h2, h3, h4, h5, h6, List.head?_cons, List.tail_cons,
      Bool.false_eq_true, if_false, ne_eq, not_false_eq_true, and_self, if_true,
      toNum_natChars, reduceIte]

/-- Characters that are digits are not the field separator. -/
theorem notComma_of_isDigit (c : Char) (h : c.isDigit = true) : notComma c = true := by
  unfold notComma
  cases hb : c == ','
  · rfl
  · have hc : c = ',' := eq_of_beq hb
    rw [hc] at h
    exact absurd h (by decide)

/-- Printed date cells contain no field separator. -/
theorem encDate_notComma (od : Option Date) : ∀ c ∈ encDate od, notComma c = true := by
  cases od with
  | none => intro c hc; cases hc
  | some dt =>
    intro c hc
    unfold encDate at hc
    rcases List.mem_append.mp hc with hc | hc
    · exact notComma_of_isDigit c (natChars_isDigit _ c hc)
    · rcases List.mem_cons.mp hc with hc | hc
      · rw [hc]; decide
      · rcases List.mem_append.mp hc with hc | hc
        · exact notComma_of_isDigit c (natChars_isDigit _ c hc)
        · rcases List.mem_cons.mp hc with hc | hc
          · rw [hc]; decide
          · exact notComma_of_isDigit c (natChars_isDigit _ c hc)

/-- Re-reading an exported line recovers the three date cells. -/
theorem reloadRow_exportRow (r : Row) : reloadRow (exportRow r) = (r.dob, r.adm, r.dis) := by
  have h1 : (encDate r.dob ++ ',' :: (encDate r.adm ++ ',' :: encDate r.dis)).takeWhile notComma
      = encDate r.dob :=
    takeWhile_append_cons _ _ _ _ (encDate_notComma r.dob) (by decide)
  have h2 : (encDate r.dob ++ ',' :: (encDate r.adm ++ ',' :: encDate r.dis)).dropWhile notComma
      = ',' :: (encDate r.adm ++ ',' :: encDate r.dis) :=
    dropWhile_append_cons _ _ _ _ (encDate_notComma r.dob) (by decide)
  have h3 : (encDate r.adm ++ ',' :: encDate r.dis).takeWhile notComma = encDate r.adm :=
    takeWhile_append_cons _ _ _ _ (encDate_notComma r.adm) (by decide)
  have h4 : (encDate r.adm ++ ',' :: encDate r.dis).dropWhile notComma = ',' :: encDate r.dis :=
    dropWhile_append_cons _ _ _ _ (encDate_notComma r.adm) (by decide)
  simp only [reloadRow, exportRow, h1, h2, h3, h4, List.head?_cons, List.tail_cons, reduceIte,
    decDate_encDate]

/-- C9: exporting the enriched table's date columns, re-loading them and
recomputing the derived columns with the same fixed reference date
reproduces age, age group and length of stay row for row. -/
theorem C9_round_trip (rs : List Row) :
    (exportTable rs).map (fun cs => recomputeDerived (reloadRow cs))
      = rs.map fun r => (ageOf r, ageGroupOf r, losOf r) := by
  unfold exportTable
  rw [List.map_map]
  apply List.map_congr_left
  intro r _
  show recomputeDerived (reloadRow (exportRow r)) = (ageOf r, ageGroupOf r, losOf r)
  rw [reloadRow_exportRow]
  rfl

end HealthData
